import Mathlib

/-!
Verification of the audio-synthesis core of handAudioThingamabob.py:
the parameter store with exponential smoothing (set_parameters), the
block reverb (apply_reverb) and the sine-block generator of the audio
callback (audioGen.callback).  Real-valued samples are embedded as
exact rationals (reverb, smoothing) or reals (sine generation); numpy
arrays are embedded as lists, and the two Python runtime errors that
apply_reverb can raise (float division by zero, and the broadcast
failure of assigning the empty slice signal[:-0] into echo[0:]) are
made explicit through an error type.
-/

namespace HandAudio

/-- Sample rate of the engine: self.fs = 16000, set in AudioGeneration.__init__. -/
def sampleRate : ℕ := 16000

/-- Python int() applied to a rational: truncation toward zero. -/
def pyTrunc (q : ℚ) : ℤ :=
  if q < 0 then ⌈q⌉ else ⌊q⌋

/-- Runtime errors that apply_reverb can raise: ZeroDivisionError from
reverb_time / num_echoes when num_echoes = 0, and the ValueError numpy
raises when the empty slice signal[:-0] is broadcast into echo[0:]
(delay_samples * i = 0 with a nonempty signal). -/
inductive RevError where
  | zeroDivision : RevError
  | broadcastError : RevError
deriving DecidableEq, Repr

instance {ε α : Type} [DecidableEq ε] [DecidableEq α] :
    DecidableEq (Except ε α) := fun a b =>
  match a, b with
  | Except.ok x, Except.ok y =>
      if h : x = y then Decidable.isTrue (by rw [h])
      else Decidable.isFalse (by simp [h])
  | Except.ok _, Except.error _ => Decidable.isFalse (by simp)
  | Except.error _, Except.ok _ => Decidable.isFalse (by simp)
  | Except.error x, Except.error y =>
      if h : x = y then Decidable.isTrue (by rw [h])
      else Decidable.isFalse (by simp [h])

/-- np.clip(x, -1.0, 1.0) on one sample. -/
def clip1 (x : ℚ) : ℚ := min 1 (max (-1) x)

/-- One iteration of the echo loop of apply_reverb, at echo index i with
accumulator acc (the reverb_signal buffer): with k = delay_samples * i,
if k < len(signal) then echo = np.zeros_like(signal);
echo[k:] = signal[:-k] * decay_factor ** i; reverb_signal += echo.
Python slice semantics: for k > 0 the assignment writes
signal.take (N - k) scaled behind k zeros; for k = 0 the right-hand
side signal[:-0] is empty and numpy raises a broadcast ValueError
(N > 0 holds inside the guard); for k < 0 both slices have length
min (-k) N and the last min (-k) N cells receive the first
min (-k) N samples scaled. -/
def echoStep (signal : List ℚ) (ds : ℤ) (decay_factor : ℚ) (i : ℕ)
    (acc : List ℚ) : Except RevError (List ℚ) :=
  let N := signal.length
  let k : ℤ := ds * i
  if k < (N : ℤ) then
    if 0 < k then
      Except.ok (List.zipWith (· + ·) acc
        (List.replicate k.toNat 0 ++
          (signal.take (N - k.toNat)).map (fun x => x * decay_factor ^ i)))
    else if k = 0 then
      Except.error RevError.broadcastError
    else
      Except.ok (List.zipWith (· + ·) acc
        (List.replicate (N - min (-k).toNat N) 0 ++
          (signal.take (min (-k).toNat N)).map (fun x => x * decay_factor ^ i)))
  else
    Except.ok acc

/-- The echo loop for i in range(1, num_echoes + 1) of apply_reverb,
written with the current index i and the number of remaining
iterations r. -/
def reverbLoop (signal : List ℚ) (ds : ℤ) (decay_factor : ℚ) :
    ℕ → ℕ → List ℚ → Except RevError (List ℚ)
  | _, 0, acc => Except.ok acc
  | i, r + 1, acc =>
    match echoStep signal ds decay_factor i acc with
    | Except.error e => Except.error e
    | Except.ok acc2 => reverbLoop signal ds decay_factor (i + 1) r acc2

/-- AudioGeneration.apply_reverb: reverb_signal = np.copy(signal);
delay_samples = int((reverb_time / num_echoes) * self.fs); the echo
loop; np.clip(reverb_signal, -1.0, 1.0).  Defaults in the source:
decay_factor = 0.6, num_echoes = 5. -/
def apply_reverb (signal : List ℚ) (reverb_time : ℚ)
    (decay_factor : ℚ := 3 / 5) (num_echoes : ℕ := 5) :
    Except RevError (List ℚ) :=
  if num_echoes = 0 then Except.error RevError.zeroDivision
  else
    let ds := pyTrunc (reverb_time / (num_echoes : ℚ) * (sampleRate : ℚ))
    match reverbLoop signal ds decay_factor 1 num_echoes signal with
    | Except.error e => Except.error e
    | Except.ok rv => Except.ok (rv.map clip1)

/-- The mutable state of an AudioGeneration instance (the lock and the
unused phase field of __init__ carried verbatim; fs is the constant
sampleRate). -/
structure AudioState where
  freq : ℚ
  amplitude : ℚ
  running : Bool
  phase : ℚ
  roomSize : ℚ
  phase_offset : ℕ
deriving DecidableEq, Repr

/-- AudioGeneration.__init__ field values: freq = 440.0,
amplitude = 0.2, running = False, phase = 0.0, roomSize = 0.3,
phase_offset = 0. -/
def initState : AudioState :=
  { freq := 440, amplitude := 1 / 5, running := false, phase := 0,
    roomSize := 3 / 10, phase_offset := 0 }

/-- AudioGeneration.set_parameters: under the lock, with alpha = 0.2,
each of freq, amplitude and roomSize is replaced by
current * (1 - alpha) + target * alpha. -/
def set_parameters (s : AudioState) (freq amplitude roomSize : ℚ) :
    AudioState :=
  let alpha : ℚ := 1 / 5
  { s with
    freq := s.freq * (1 - alpha) + freq * alpha,
    amplitude := s.amplitude * (1 - alpha) + amplitude * alpha,
    roomSize := s.roomSize * (1 - alpha) + roomSize * alpha }

/-- The spec generalisation setSmoothed(freqTarget, ampTarget,
roomTarget, alpha): each field is updated as
current = current * (1 - alpha) + target * alpha.  The source's
set_parameters is setSmoothed at alpha = 0.2. -/
def setSmoothed (alpha freqT ampT roomT : ℚ) (s : AudioState) :
    AudioState :=
  { s with
    freq := s.freq * (1 - alpha) + freqT * alpha,
    amplitude := s.amplitude * (1 - alpha) + ampT * alpha,
    roomSize := s.roomSize * (1 - alpha) + roomT * alpha }

/-- AudioGeneration.start_audio: if not self.running, set running and
spawn the audioGen thread.  The boolean in the result records whether
a new thread was spawned. -/
def start_audio (s : AudioState) : AudioState × Bool :=
  if s.running then (s, false) else ({ s with running := true }, true)

/-- AudioGeneration.stop_audio: under the lock, running = False. -/
def stop_audio (s : AudioState) : AudioState :=
  { s with running := false }

/-- Effect on the shared AudioGeneration state of the spawned audioGen
thread when the output device cannot be opened: the sd.OutputStream
constructor raises before the callback or the wait loop ever run, the
daemon thread dies with the exception, and no field of self is
touched; in particular nothing resets self.running. -/
def audioGenDeviceFail (s : AudioState) : AudioState := s

/-- Contribution of echo index t to output position j, as the spec
describes one echo: present when delaySamples * t < N and position j
is at or past the shift boundary, and then equal to the input sample
delaySamples * t places earlier scaled by decayFactor ^ t. -/
def echoContrib (signal : List ℚ) (ds : ℤ) (c : ℚ) (t j : ℕ) : ℚ :=
  if ds * (t : ℤ) < (signal.length : ℤ) ∧ ds * (t : ℤ) ≤ (j : ℤ)
  then c ^ t * signal.getD (j - (ds * (t : ℤ)).toNat) 0
  else 0

/-- Reference reverb, written from the spec description of the
algorithm (for comparison with apply_reverb): with
delaySamples = floor((reverbTime / numEchoes) * sampleRate), the
output at position j is the input sample plus the contributions of
the echo indices 1..numEchoes, the sum clamped to the interval from
-1 to 1. -/
def reverbRef (signal : List ℚ) (reverb_time decay_factor : ℚ)
    (num_echoes : ℕ) : List ℚ :=
  (List.range signal.length).map (fun j =>
    clip1 (signal.getD j 0 +
      ∑ t in Finset.Icc 1 num_echoes,
        echoContrib signal
          ⌊reverb_time / (num_echoes : ℚ) * (sampleRate : ℚ)⌋
          decay_factor t j))

/-- One raw (pre-reverb) block of the audioGen callback:
t = (np.arange(frames) + self.phase_offset) / self.fs and
samples = self.amplitude * np.sin(2 * np.pi * self.freq * t), embedded
over the reals (the float32 cast of the source is dropped). -/
noncomputable def sineBlock (freq amplitude : ℝ) (phase_offset frames : ℕ) :
    List ℝ :=
  (List.range frames).map (fun (i : ℕ) =>
    amplitude * Real.sin (2 * Real.pi * freq *
      (((i : ℝ) + (phase_offset : ℝ)) / (sampleRate : ℝ))))

/-- The phase counter update of the callback: self.phase_offset += frames;
self.phase_offset %= self.fs. -/
def advancePhase (phase_offset frames : ℕ) : ℕ :=
  (phase_offset + frames) % sampleRate

/-- A sequence of stored values converges to the target t. -/
def convergesTo (u : ℕ → ℚ) (t : ℚ) : Prop :=
  ∀ ε : ℚ, 0 < ε → ∃ N, ∀ n, N ≤ n → |u n - t| < ε

/-- Each step brings the stored value no farther from the target t. -/
def distNonincreasing (u : ℕ → ℚ) (t : ℚ) : Prop :=
  ∀ n, |u (n + 1) - t| ≤ |u n - t|

/-- The stored value never crosses to the other side of the target t. -/
def neverCrosses (u : ℕ → ℚ) (t : ℚ) : Prop :=
  ∀ n, (u 0 ≤ t → u n ≤ t) ∧ (t ≤ u 0 → t ≤ u n)

/-- The two heap buffers apply_reverb works with: the caller's signal
array, and the reverb_signal array that np.copy(signal) allocates.
Each numpy echo buffer is a fresh temporary and is not tracked. -/
structure RevBuffers where
  sig : List ℚ
  rev : List ℚ
deriving DecidableEq, Repr

/-- np.copy: allocates a new buffer holding the same samples. -/
def npCopy (xs : List ℚ) : List ℚ := xs

/-- One echo-loop iteration on the buffer pair: reads the signal
buffer, accumulates into the reverb_signal buffer; when the broadcast
assignment raises, both buffers are left as they were (the failed
write targets the temporary echo array). -/
def echoStepBuf (ds : ℤ) (c : ℚ) (i : ℕ) (b : RevBuffers) :
    Option RevError × RevBuffers :=
  match echoStep b.sig ds c i b.rev with
  | Except.error e => (some e, b)
  | Except.ok r => (none, { b with rev := r })

/-- The echo loop on the buffer pair. -/
def reverbLoopBuf (ds : ℤ) (c : ℚ) :
    ℕ → ℕ → RevBuffers → Option RevError × RevBuffers
  | _, 0, b => (none, b)
  | i, r + 1, b =>
    match echoStepBuf ds c i b with
    | (some e, b2) => (some e, b2)
    | (none, b2) => reverbLoopBuf ds c (i + 1) r b2

/-- apply_reverb on the explicit buffer pair: reverb_signal =
np.copy(signal) allocates the second buffer, the loop accumulates
into it, and np.clip builds the returned array; the final buffer
states are returned alongside the result. -/
def apply_reverbBuf (signal : List ℚ) (reverb_time decay_factor : ℚ)
    (num_echoes : ℕ) : Except RevError (List ℚ) × RevBuffers :=
  if num_echoes = 0 then
    (Except.error RevError.zeroDivision, { sig := signal, rev := npCopy signal })
  else
    match reverbLoopBuf
        (pyTrunc (reverb_time / (num_echoes : ℚ) * (sampleRate : ℚ)))
        decay_factor 1 num_echoes
        { sig := signal, rev := npCopy signal } with
    | (some e, b2) => (Except.error e, b2)
    | (none, b2) => (Except.ok (b2.rev.map clip1), b2)

/-- C4: one call to set_parameters replaces each of freq, amplitude and
roomSize by current * (1 - alpha) + target * alpha with alpha = 0.2,
and leaves every other field of the state unchanged. -/
theorem set_parameters_smoothing (s : AudioState) (f a r : ℚ) :
    (set_parameters s f a r).freq = s.freq * (1 - 1 / 5) + f * (1 / 5) ∧
    (set_parameters s f a r).amplitude
      = s.amplitude * (1 - 1 / 5) + a * (1 / 5) ∧
    (set_parameters s f a r).roomSize
      = s.roomSize * (1 - 1 / 5) + r * (1 / 5) ∧
    (set_parameters s f a r).running = s.running ∧
    (set_parameters s f a r).phase = s.phase ∧
    (set_parameters s f a r).phase_offset = s.phase_offset :=
  ⟨rfl, rfl, rfl, rfl, rfl, rfl⟩

/-- C9: start_audio while running is a no-op that spawns no thread, and
stop_audio while stopped leaves the state unchanged. -/
theorem start_stop_noop (s : AudioState) :
    (s.running = true → start_audio s = (s, false)) ∧
    (s.running = false → stop_audio s = s) := by
  constructor
  · intro h
    simp [start_audio, h]
  · intro h
    cases s
    simp_all [stop_audio]

/-- Witness for start_stop_noop at concrete states. -/
theorem start_stop_noop_witness :
    (start_audio { initState with running := true }
      = ({ initState with running := true }, false)) ∧
    stop_audio initState = initState :=
  ⟨(start_stop_noop { initState with running := true }).1 rfl,
   (start_stop_noop initState).2 rfl⟩

set_option maxHeartbeats 1000000 in
/-- C6, failing run: with reverbTime = 0 the code computes
delay_samples = 0, and the first loop iteration assigns the empty
slice signal[:-0] into the full slice echo[0:], which raises a numpy
broadcast ValueError for any nonempty signal instead of producing the
claimed amplified copy of the input. -/
theorem apply_reverb_time_zero_raises :
    apply_reverb [1 / 2, 0] 0 (3 / 5) 5
      = Except.error RevError.broadcastError := by
  norm_num [apply_reverb, reverbLoop, echoStep, pyTrunc, sampleRate]

/-- C7, failing run: with num_echoes = 0 the expression
reverb_time / num_echoes raises ZeroDivisionError in Python; the call
does not complete. -/
theorem apply_reverb_num_echoes_zero_raises :
    apply_reverb [1 / 2] (3 / 10) (3 / 5) 0
      = Except.error RevError.zeroDivision := by
  norm_num [apply_reverb]

set_option maxHeartbeats 1000000 in
/-- C1, counterexample: at reverbTime = 0 (delaySamples = 0) the code
raises the broadcast error while the reference result is defined, so
apply_reverb does not return the reference result for every
reverbTime. -/
theorem apply_reverb_ref_cex :
    apply_reverb [0] 0 (3 / 5) 5 = Except.error RevError.broadcastError ∧
    apply_reverb [0] 0 (3 / 5) 5 ≠ Except.ok (reverbRef [0] 0 (3 / 5) 5) := by
  have h : apply_reverb [0] 0 (3 / 5) 5
      = Except.error RevError.broadcastError := by
    norm_num [apply_reverb, reverbLoop, echoStep, pyTrunc, sampleRate]
  refine ⟨h, ?_⟩
  rw [h]
  exact fun hc => Except.noConfusion hc

set_option maxHeartbeats 1000000 in
/-- C2, counterexample: the triple frequency = 440, amplitude = 0.2,
roomSize = 1/6400 is valid (frequency > 0, amplitude between 0 and 1,
roomSize > 0), yet apply_reverb on the one-sample block raises the
broadcast error (delaySamples = trunc((1/6400) / 5 * 16000) = 0), so
no sequence at all is returned. -/
theorem apply_reverb_range_cex :
    (0 : ℚ) < 440 ∧ (0 : ℚ) ≤ 1 / 5 ∧ (1 : ℚ) / 5 ≤ 1 ∧ (0 : ℚ) < 1 / 6400 ∧
    apply_reverb [1 / 2] (1 / 6400) (3 / 5) 5
      = Except.error RevError.broadcastError := by
  refine ⟨by norm_num, by norm_num, by norm_num, by norm_num, ?_⟩
  norm_num [apply_reverb, reverbLoop, echoStep, pyTrunc, sampleRate]

theorem echo_length (signal : List ℚ) (c : ℚ) (kn : ℕ)
    (hkn : kn ≤ signal.length) :
    (List.replicate kn (0 : ℚ) ++
      (signal.take (signal.length - kn)).map (fun x => x * c)).length
      = signal.length := by
  simp only [List.length_append, List.length_replicate, List.length_map,
    List.length_take]
  omega

theorem echo_getD (signal : List ℚ) (c : ℚ) (kn j : ℕ)
    (hkn : kn ≤ signal.length) (hj : j < signal.length) :
    (List.replicate kn (0 : ℚ) ++
      (signal.take (signal.length - kn)).map (fun x => x * c)).getD j 0
      = if kn ≤ j then signal.getD (j - kn) 0 * c else 0 := by
  have hE := echo_length signal c kn hkn
  rw [List.getD_eq_getElem _ 0 (by rw [hE]; exact hj)]
  by_cases hc : kn ≤ j
  · rw [if_pos hc]
    rw [List.getElem_append_right (by simpa using hc)]
    simp only [List.length_replicate]
    rw [List.getElem_map, List.getElem_take,
      List.getD_eq_getElem signal 0 (by omega)]
  · rw [if_neg hc]
    rw [List.getElem_append_left (by simp only [List.length_replicate]; omega)]
    rw [List.getElem_replicate]

theorem zipWith_add_getD (a b : List ℚ) (j : ℕ)
    (hab : b.length = a.length) (hj : j < a.length) :
    (List.zipWith (fun x y => x + y) a b).getD j 0
      = a.getD j 0 + b.getD j 0 := by
  have hz : (List.zipWith (fun x y => x + y) a b).length = a.length := by
    rw [List.length_zipWith, hab, min_self]
  rw [List.getD_eq_getElem _ 0 (by rw [hz]; exact hj),
    List.getElem_zipWith, List.getD_eq_getElem a 0 hj,
    List.getD_eq_getElem b 0 (by omega)]

theorem reverbLoop_ok (signal : List ℚ) (ds : ℤ) (c : ℚ) (hds : 1 ≤ ds)
    (r : ℕ) :
    ∀ (i : ℕ) (acc : List ℚ), 1 ≤ i → acc.length = signal.length →
      ∃ out, reverbLoop signal ds c i r acc = Except.ok out ∧
        out.length = signal.length ∧
        ∀ j, j < signal.length →
          out.getD j 0
            = acc.getD j 0 + ∑ t in Finset.Ico i (i + r), echoContrib signal ds c t j := by
  induction r with
  | zero =>
    intro i acc hi hacc
    exact ⟨acc, rfl, hacc, fun j hj => by simp⟩
  | succ r ih =>
    intro i acc hi hacc
    have hk1 : 1 ≤ ds * (i : ℤ) := by
      have hi1 : (1 : ℤ) ≤ (i : ℤ) := by exact_mod_cast hi
      nlinarith
    have hsum : ∀ j : ℕ,
        ∑ t in Finset.Ico i (i + (r + 1)), echoContrib signal ds c t j
          = echoContrib signal ds c i j
            + ∑ t in Finset.Ico (i + 1) (i + 1 + r), echoContrib signal ds c t j := by
      intro j
      have hb : i + (r + 1) = i + 1 + r := by omega
      rw [hb, Finset.sum_eq_sum_Ico_succ_bot (by omega)]
    by_cases hkN : ds * (i : ℤ) < (signal.length : ℤ)
    · have hknN : (ds * (i : ℤ)).toNat < signal.length := by omega
      have hstep : echoStep signal ds c i acc
          = Except.ok (List.zipWith (fun x y => x + y) acc
              (List.replicate (ds * (i : ℤ)).toNat (0 : ℚ) ++
                (signal.take (signal.length - (ds * (i : ℤ)).toNat)).map
                  (fun x => x * c ^ i))) := by
        rw [echoStep]
        simp only [if_pos hkN, if_pos (show (0 : ℤ) < ds * (i : ℤ) by omega)]
      have hlen2 : (List.zipWith (fun x y => x + y) acc
          (List.replicate (ds * (i : ℤ)).toNat (0 : ℚ) ++
            (signal.take (signal.length - (ds * (i : ℤ)).toNat)).map
              (fun x => x * c ^ i))).length = signal.length := by
        rw [List.length_zipWith, echo_length signal _ _ (by omega), hacc, min_self]
      obtain ⟨out, hloop, hlen, hvals⟩ := ih (i + 1) _ (by omega) hlen2
      refine ⟨out, ?_, hlen, ?_⟩
      · rw [reverbLoop, hstep]
        exact hloop
      · intro j hj
        rw [hvals j hj, hsum j,
          zipWith_add_getD _ _ _ (by rw [echo_length signal _ _ (by omega), hacc]) (by omega),
          echo_getD signal _ _ _ (by omega) hj]
        have hcontrib : (if (ds * (i : ℤ)).toNat ≤ j
              then signal.getD (j - (ds * (i : ℤ)).toNat) 0 * c ^ i else 0)
            = echoContrib signal ds c i j := by
          rw [echoContrib]
          by_cases hcj : ds * (i : ℤ) ≤ (j : ℤ)
          · rw [if_pos (by omega), if_pos ⟨hkN, hcj⟩, mul_comm]
          · rw [if_neg (by omega), if_neg (by tauto)]
        rw [hcontrib]
        ring
    · have hstep : echoStep signal ds c i acc = Except.ok acc := by
        rw [echoStep]
        simp only [if_neg hkN]
      obtain ⟨out, hloop, hlen, hvals⟩ := ih (i + 1) acc (by omega) hacc
      refine ⟨out, ?_, hlen, ?_⟩
      · rw [reverbLoop, hstep]
        exact hloop
      · intro j hj
        rw [hvals j hj, hsum j]
        have hzero : echoContrib signal ds c i j = 0 := by
          rw [echoContrib, if_neg (by tauto)]
        rw [hzero]
        ring

/-- C1 (amended): for every signal, decayFactor and numEchoes >= 1, and
every reverbTime for which delaySamples =
floor((reverbTime / numEchoes) * sampleRate) is at least 1,
apply_reverb returns exactly the reference result: the input plus the
per-index echo contributions, clamped elementwise to the interval
from -1 to 1 (for delaySamples = 0 the code raises instead, see the
counterexample). -/
theorem apply_reverb_matches_ref (signal : List ℚ)
    (reverb_time decay_factor : ℚ) (num_echoes : ℕ)
    (hn : 1 ≤ num_echoes)
    (hds : 1 ≤ ⌊reverb_time / (num_echoes : ℚ) * (sampleRate : ℚ)⌋) :
    apply_reverb signal reverb_time decay_factor num_echoes
      = Except.ok (reverbRef signal reverb_time decay_factor num_echoes) := by
  have hne : num_echoes ≠ 0 := by omega
  have hx : (0 : ℚ) ≤ reverb_time / (num_echoes : ℚ) * (sampleRate : ℚ) := by
    have h1 : ((1 : ℤ) : ℚ) ≤ reverb_time / (num_echoes : ℚ) * (sampleRate : ℚ) :=
      Int.le_floor.mp hds
    push_cast at h1
    linarith
  have hpt : pyTrunc (reverb_time / (num_echoes : ℚ) * (sampleRate : ℚ))
      = ⌊reverb_time / (num_echoes : ℚ) * (sampleRate : ℚ)⌋ := by
    rw [pyTrunc, if_neg (not_lt.mpr hx)]
  obtain ⟨out, hloop, hlen, hvals⟩ :=
    reverbLoop_ok signal _ decay_factor hds num_echoes 1 signal le_rfl rfl
  simp only [apply_reverb]
  rw [if_neg hne, hpt, hloop]
  refine congrArg Except.ok (List.ext_getElem ?_ ?_)
  · simp only [List.length_map, hlen, reverbRef, List.length_range]
  · intro j h1 h2
    have hjN : j < signal.length := by
      rw [List.length_map, hlen] at h1
      exact h1
    simp only [reverbRef, List.getElem_map, List.getElem_range]
    rw [← List.getD_eq_getElem out 0 (by rw [hlen]; exact hjN)]
    rw [hvals j hjN]
    rw [show 1 + num_echoes = num_echoes + 1 from by omega, Nat.Ico_succ_right]

/-- C2 (amended): for every input block and numEchoes >= 1, whenever
delaySamples = floor((reverbTime / numEchoes) * sampleRate) is at
least 1, a single apply_reverb call returns a sequence of the same
length as the input with every element between -1 and 1 (for smaller
positive roomSize the call raises instead, see the counterexample). -/
theorem apply_reverb_length_range (signal : List ℚ)
    (reverb_time decay_factor : ℚ) (num_echoes : ℕ)
    (hn : 1 ≤ num_echoes)
    (hds : 1 ≤ ⌊reverb_time / (num_echoes : ℚ) * (sampleRate : ℚ)⌋) :
    ∃ out,
      apply_reverb signal reverb_time decay_factor num_echoes = Except.ok out ∧
      out.length = signal.length ∧ ∀ x ∈ out, -1 ≤ x ∧ x ≤ 1 := by
  have hne : num_echoes ≠ 0 := by omega
  have hx : (0 : ℚ) ≤ reverb_time / (num_echoes : ℚ) * (sampleRate : ℚ) := by
    have h1 : ((1 : ℤ) : ℚ) ≤ reverb_time / (num_echoes : ℚ) * (sampleRate : ℚ) :=
      Int.le_floor.mp hds
    push_cast at h1
    linarith
  have hpt : pyTrunc (reverb_time / (num_echoes : ℚ) * (sampleRate : ℚ))
      = ⌊reverb_time / (num_echoes : ℚ) * (sampleRate : ℚ)⌋ := by
    rw [pyTrunc, if_neg (not_lt.mpr hx)]
  obtain ⟨out, hloop, hlen, _⟩ :=
    reverbLoop_ok signal _ decay_factor hds num_echoes 1 signal le_rfl rfl
  refine ⟨out.map clip1, ?_, by rw [List.length_map, hlen], ?_⟩
  · simp only [apply_reverb]
    rw [if_neg hne, hpt, hloop]
  · intro x hx2
    obtain ⟨y, _, rfl⟩ := List.mem_map.mp hx2
    simp only [clip1]
    exact ⟨le_min (by norm_num) (le_max_left _ _), min_le_left _ _⟩


/-- Witness for apply_reverb_matches_ref at the spec-style example
block with reverbTime = 1/1600 (delaySamples = 2). -/
theorem apply_reverb_matches_ref_witness :
    1 ≤ 5 ∧
    (1 : ℤ) ≤ ⌊(1 / 1600 : ℚ) / ((5 : ℕ) : ℚ) * (sampleRate : ℚ)⌋ ∧
    apply_reverb [1, 0, 0, 0, 0, 0, 0, 0] (1 / 1600) (3 / 5) 5
      = Except.ok (reverbRef [1, 0, 0, 0, 0, 0, 0, 0] (1 / 1600) (3 / 5) 5) :=
  ⟨by norm_num, by norm_num [sampleRate],
    apply_reverb_matches_ref [1, 0, 0, 0, 0, 0, 0, 0] (1 / 1600) (3 / 5) 5
      (by norm_num) (by norm_num [sampleRate])⟩

/-- Witness for apply_reverb_length_range at the default roomSize 0.3
(delaySamples = 960). -/
theorem apply_reverb_length_range_witness :
    1 ≤ 5 ∧
    (1 : ℤ) ≤ ⌊(3 / 10 : ℚ) / ((5 : ℕ) : ℚ) * (sampleRate : ℚ)⌋ ∧
    ∃ out,
      apply_reverb [1 / 2, 1, -1] (3 / 10) (3 / 5) 5 = Except.ok out ∧
      out.length = ([(1 : ℚ) / 2, 1, -1]).length ∧
      ∀ x ∈ out, -1 ≤ x ∧ x ≤ 1 :=
  ⟨by norm_num, by norm_num [sampleRate],
    apply_reverb_length_range [1 / 2, 1, -1] (3 / 10) (3 / 5) 5
      (by norm_num) (by norm_num [sampleRate])⟩

theorem smoothIter_sub (alpha t x : ℚ) (n : ℕ) :
    (fun y => y * (1 - alpha) + t * alpha)^[n] x - t
      = (1 - alpha) ^ n * (x - t) := by
  induction n with
  | zero => simp
  | succ n ih =>
    rw [Function.iterate_succ_apply']
    have hstep : ∀ y : ℚ, y * (1 - alpha) + t * alpha - t = (1 - alpha) * (y - t) := by
      intro y
      ring
    rw [hstep, ih, pow_succ]
    ring

theorem smooth_scalar_props (alpha t x : ℚ) (h0 : 0 < alpha) (h1 : alpha ≤ 1) :
    distNonincreasing (fun n => (fun y => y * (1 - alpha) + t * alpha)^[n] x) t ∧
    neverCrosses (fun n => (fun y => y * (1 - alpha) + t * alpha)^[n] x) t ∧
    convergesTo (fun n => (fun y => y * (1 - alpha) + t * alpha)^[n] x) t := by
  have hb0 : (0 : ℚ) ≤ 1 - alpha := by linarith
  have hb1 : 1 - alpha < 1 := by linarith
  refine ⟨?_, ?_, ?_⟩
  · intro n
    simp only [smoothIter_sub]
    have h2 : |(1 - alpha) ^ (n + 1) * (x - t)|
        = |1 - alpha| * |(1 - alpha) ^ n * (x - t)| := by
      rw [pow_succ, abs_mul, abs_mul, abs_mul]
      ring
    rw [h2]
    exact mul_le_of_le_one_left (abs_nonneg _)
      (by rw [abs_of_nonneg hb0]; linarith)
  · intro n
    simp only [Function.iterate_zero_apply]
    constructor
    · intro hx
      have := smoothIter_sub alpha t x n
      nlinarith [pow_nonneg hb0 n]
    · intro hx
      have := smoothIter_sub alpha t x n
      nlinarith [pow_nonneg hb0 n]
  · intro ε hε
    by_cases hxt : x = t
    · refine ⟨0, fun n _ => ?_⟩
      simp [smoothIter_sub, hxt, hε]
    · have hD : 0 < |x - t| := abs_pos.mpr (sub_ne_zero.mpr hxt)
      obtain ⟨N, hN⟩ := exists_pow_lt_of_lt_one (div_pos hε hD) hb1
      refine ⟨N, fun n hn => ?_⟩
      have hmono : (1 - alpha) ^ n ≤ (1 - alpha) ^ N :=
        pow_le_pow_of_le_one hb0 (by linarith) hn
      have : |(fun y => y * (1 - alpha) + t * alpha)^[n] x - t|
          = (1 - alpha) ^ n * |x - t| := by
        rw [smoothIter_sub, abs_mul, abs_of_nonneg (pow_nonneg hb0 n)]
      rw [this]
      calc (1 - alpha) ^ n * |x - t| ≤ (1 - alpha) ^ N * |x - t| := by
            nlinarith
        _ < ε / |x - t| * |x - t| := by nlinarith
        _ = ε := by field_simp

theorem setSmoothed_iter_freq (alpha fT aT rT : ℚ) (s : AudioState) (n : ℕ) :
    ((setSmoothed alpha fT aT rT)^[n] s).freq
      = (fun y => y * (1 - alpha) + fT * alpha)^[n] s.freq := by
  induction n with
  | zero => rfl
  | succ n ih =>
    rw [Function.iterate_succ_apply', Function.iterate_succ_apply']
    show ((setSmoothed alpha fT aT rT)^[n] s).freq * (1 - alpha) + fT * alpha = _
    rw [ih]

theorem setSmoothed_iter_amplitude (alpha fT aT rT : ℚ) (s : AudioState)
    (n : ℕ) :
    ((setSmoothed alpha fT aT rT)^[n] s).amplitude
      = (fun y => y * (1 - alpha) + aT * alpha)^[n] s.amplitude := by
  induction n with
  | zero => rfl
  | succ n ih =>
    rw [Function.iterate_succ_apply', Function.iterate_succ_apply']
    show ((setSmoothed alpha fT aT rT)^[n] s).amplitude * (1 - alpha)
        + aT * alpha = _
    rw [ih]

theorem setSmoothed_iter_roomSize (alpha fT aT rT : ℚ) (s : AudioState)
    (n : ℕ) :
    ((setSmoothed alpha fT aT rT)^[n] s).roomSize
      = (fun y => y * (1 - alpha) + rT * alpha)^[n] s.roomSize := by
  induction n with
  | zero => rfl
  | succ n ih =>
    rw [Function.iterate_succ_apply', Function.iterate_succ_apply']
    show ((setSmoothed alpha fT aT rT)^[n] s).roomSize * (1 - alpha)
        + rT * alpha = _
    rw [ih]

/-- C5: repeated setSmoothed calls with a fixed target and
alpha in (0, 1] drive each of the three stored fields toward its
target monotonically (the distance to the target never increases),
without ever crossing to the other side of the target, and with
convergence to the target. -/
theorem setSmoothed_converges (alpha fT aT rT : ℚ)
    (h0 : 0 < alpha) (h1 : alpha ≤ 1) (s : AudioState) :
    (distNonincreasing
        (fun n => ((setSmoothed alpha fT aT rT)^[n] s).freq) fT ∧
      neverCrosses
        (fun n => ((setSmoothed alpha fT aT rT)^[n] s).freq) fT ∧
      convergesTo
        (fun n => ((setSmoothed alpha fT aT rT)^[n] s).freq) fT) ∧
    (distNonincreasing
        (fun n => ((setSmoothed alpha fT aT rT)^[n] s).amplitude) aT ∧
      neverCrosses
        (fun n => ((setSmoothed alpha fT aT rT)^[n] s).amplitude) aT ∧
      convergesTo
        (fun n => ((setSmoothed alpha fT aT rT)^[n] s).amplitude) aT) ∧
    (distNonincreasing
        (fun n => ((setSmoothed alpha fT aT rT)^[n] s).roomSize) rT ∧
      neverCrosses
        (fun n => ((setSmoothed alpha fT aT rT)^[n] s).roomSize) rT ∧
      convergesTo
        (fun n => ((setSmoothed alpha fT aT rT)^[n] s).roomSize) rT) := by
  have hf : (fun n => ((setSmoothed alpha fT aT rT)^[n] s).freq)
      = fun n => (fun y => y * (1 - alpha) + fT * alpha)^[n] s.freq :=
    funext (setSmoothed_iter_freq alpha fT aT rT s)
  have ha : (fun n => ((setSmoothed alpha fT aT rT)^[n] s).amplitude)
      = fun n => (fun y => y * (1 - alpha) + aT * alpha)^[n] s.amplitude :=
    funext (setSmoothed_iter_amplitude alpha fT aT rT s)
  have hr : (fun n => ((setSmoothed alpha fT aT rT)^[n] s).roomSize)
      = fun n => (fun y => y * (1 - alpha) + rT * alpha)^[n] s.roomSize :=
    funext (setSmoothed_iter_roomSize alpha fT aT rT s)
  rw [hf, ha, hr]
  exact ⟨smooth_scalar_props alpha fT s.freq h0 h1,
    smooth_scalar_props alpha aT s.amplitude h0 h1,
    smooth_scalar_props alpha rT s.roomSize h0 h1⟩

/-- Witness for setSmoothed_converges at the source alpha 0.2, target
(550, 1/2, 1) and the initial state. -/
theorem setSmoothed_converges_witness :
    (0 : ℚ) < 1 / 5 ∧ (1 : ℚ) / 5 ≤ 1 ∧
    ((distNonincreasing
        (fun n => ((setSmoothed (1 / 5) 550 (1 / 2) 1)^[n] initState).freq)
        550 ∧
      neverCrosses
        (fun n => ((setSmoothed (1 / 5) 550 (1 / 2) 1)^[n] initState).freq)
        550 ∧
      convergesTo
        (fun n => ((setSmoothed (1 / 5) 550 (1 / 2) 1)^[n] initState).freq)
        550) ∧
    (distNonincreasing
        (fun n =>
          ((setSmoothed (1 / 5) 550 (1 / 2) 1)^[n] initState).amplitude)
        (1 / 2) ∧
      neverCrosses
        (fun n =>
          ((setSmoothed (1 / 5) 550 (1 / 2) 1)^[n] initState).amplitude)
        (1 / 2) ∧
      convergesTo
        (fun n =>
          ((setSmoothed (1 / 5) 550 (1 / 2) 1)^[n] initState).amplitude)
        (1 / 2)) ∧
    (distNonincreasing
        (fun n =>
          ((setSmoothed (1 / 5) 550 (1 / 2) 1)^[n] initState).roomSize)
        1 ∧
      neverCrosses
        (fun n =>
          ((setSmoothed (1 / 5) 550 (1 / 2) 1)^[n] initState).roomSize)
        1 ∧
      convergesTo
        (fun n =>
          ((setSmoothed (1 / 5) 550 (1 / 2) 1)^[n] initState).roomSize)
        1)) :=
  ⟨by norm_num, by norm_num,
    setSmoothed_converges (1 / 5) 550 (1 / 2) 1 (by norm_num) (by norm_num)
      initState⟩

/-- C8, failing run: when the output device cannot be opened,
start_audio has already set running = True before spawning the
thread, the OutputStream failure kills only the daemon thread, and no
DeviceUnavailable-style error reaches the caller; the engine is left
with running = True, not in the stopped state the claim requires.
The stored parameters are indeed unaffected. -/
theorem start_device_failure_state (s : AudioState)
    (h : s.running = false) :
    (audioGenDeviceFail (start_audio s).1).running = true ∧
    (audioGenDeviceFail (start_audio s).1).freq = s.freq ∧
    (audioGenDeviceFail (start_audio s).1).amplitude = s.amplitude ∧
    (audioGenDeviceFail (start_audio s).1).roomSize = s.roomSize := by
  simp [start_audio, audioGenDeviceFail, h]

/-- Witness for start_device_failure_state at the initial state. -/
theorem start_device_failure_state_witness :
    initState.running = false ∧
    ((audioGenDeviceFail (start_audio initState).1).running = true ∧
      (audioGenDeviceFail (start_audio initState).1).freq = initState.freq ∧
      (audioGenDeviceFail (start_audio initState).1).amplitude
        = initState.amplitude ∧
      (audioGenDeviceFail (start_audio initState).1).roomSize
        = initState.roomSize) :=
  ⟨rfl, start_device_failure_state initState rfl⟩

theorem echoStepBuf_sig (ds : ℤ) (c : ℚ) (i : ℕ) (b : RevBuffers) :
    ((echoStepBuf ds c i b).2).sig = b.sig := by
  rw [echoStepBuf]
  cases echoStep b.sig ds c i b.rev <;> rfl

theorem reverbLoopBuf_sig (ds : ℤ) (c : ℚ) (r : ℕ) :
    ∀ (i : ℕ) (b : RevBuffers),
      ((reverbLoopBuf ds c i r b).2).sig = b.sig := by
  induction r with
  | zero => intro i b; rfl
  | succ r ih =>
    intro i b
    have hs := echoStepBuf_sig ds c i b
    rcases h : echoStepBuf ds c i b with ⟨oe, b2⟩
    rw [h] at hs
    cases oe with
    | some e =>
      rw [reverbLoopBuf, h]
      exact hs
    | none =>
      rw [reverbLoopBuf, h]
      rw [ih (i + 1) b2]
      exact hs

theorem echoStepBuf_rev (ds : ℤ) (c : ℚ) (i : ℕ) (b : RevBuffers) :
    echoStep b.sig ds c i b.rev
      = (match echoStepBuf ds c i b with
         | (some e, _) => Except.error e
         | (none, b2) => Except.ok b2.rev) := by
  rw [echoStepBuf]
  cases echoStep b.sig ds c i b.rev <;> rfl

theorem reverbLoopBuf_rev (ds : ℤ) (c : ℚ) (r : ℕ) :
    ∀ (i : ℕ) (b : RevBuffers),
      reverbLoop b.sig ds c i r b.rev
        = (match reverbLoopBuf ds c i r b with
           | (some e, _) => Except.error e
           | (none, b2) => Except.ok b2.rev) := by
  induction r with
  | zero => intro i b; rfl
  | succ r ih =>
    intro i b
    have hb := echoStepBuf_rev ds c i b
    have hs := echoStepBuf_sig ds c i b
    rcases h : echoStepBuf ds c i b with ⟨oe, b2⟩
    rw [h] at hb hs
    cases oe with
    | some e =>
      rw [reverbLoop, reverbLoopBuf, h, hb]
    | none =>
      rw [reverbLoop, reverbLoopBuf, h, hb]
      have := ih (i + 1) b2
      rw [hs] at this
      exact this

/-- C10: apply_reverb does not mutate its input signal buffer: the
echoes are accumulated into the buffer allocated by np.copy(signal),
so on the success path and on both error paths the caller's block is
left unchanged, and the buffer-level run returns exactly the
result of apply_reverb. -/
theorem apply_reverb_no_mutation (signal : List ℚ)
    (reverb_time decay_factor : ℚ) (num_echoes : ℕ) :
    ((apply_reverbBuf signal reverb_time decay_factor num_echoes).2).sig
      = signal ∧
    (apply_reverbBuf signal reverb_time decay_factor num_echoes).1
      = apply_reverb signal reverb_time decay_factor num_echoes := by
  by_cases hn : num_echoes = 0
  · subst hn
    exact ⟨rfl, rfl⟩
  · have hsig2 : ((reverbLoopBuf
          (pyTrunc (reverb_time / (num_echoes : ℚ) * (sampleRate : ℚ)))
          decay_factor 1 num_echoes
          { sig := signal, rev := npCopy signal }).2).sig = signal :=
      reverbLoopBuf_sig
        (pyTrunc (reverb_time / (num_echoes : ℚ) * (sampleRate : ℚ)))
        decay_factor num_echoes 1 { sig := signal, rev := npCopy signal }
    have hrev2 : reverbLoop signal
          (pyTrunc (reverb_time / (num_echoes : ℚ) * (sampleRate : ℚ)))
          decay_factor 1 num_echoes signal
        = (match reverbLoopBuf
              (pyTrunc (reverb_time / (num_echoes : ℚ) * (sampleRate : ℚ)))
              decay_factor 1 num_echoes
              { sig := signal, rev := npCopy signal } with
           | (some e, _) => Except.error e
           | (none, b2) => Except.ok b2.rev) :=
      reverbLoopBuf_rev
        (pyTrunc (reverb_time / (num_echoes : ℚ) * (sampleRate : ℚ)))
        decay_factor num_echoes 1 { sig := signal, rev := npCopy signal }
    simp only [apply_reverb, apply_reverbBuf, if_neg hn]
    rcases h : reverbLoopBuf
        (pyTrunc (reverb_time / (num_echoes : ℚ) * (sampleRate : ℚ)))
        decay_factor 1 num_echoes
        { sig := signal, rev := npCopy signal } with ⟨oe, b2⟩
    rw [h] at hsig2 hrev2
    rw [hrev2]
    cases oe with
    | some e => exact ⟨hsig2, rfl⟩
    | none => exact ⟨hsig2, rfl⟩

theorem sineBlock_length (freq amplitude : ℝ) (p N : ℕ) :
    (sineBlock freq amplitude p N).length = N := by
  unfold sineBlock
  rw [List.length_map, List.length_range]

theorem sineBlock_getD (freq amplitude : ℝ) (p N j : ℕ) (hj : j < N) :
    (sineBlock freq amplitude p N).getD j 0
      = amplitude * Real.sin (2 * Real.pi * freq *
          (((j : ℝ) + (p : ℝ)) / ((sampleRate : ℕ) : ℝ))) := by
  rw [List.getD_eq_getElem _ 0 (by rw [sineBlock_length]; exact hj)]
  unfold sineBlock
  rw [List.getElem_map, List.getElem_range]

/-- C3 (amended): concatenating two consecutive raw (pre-reverb) sine
blocks of length N with the phase counter carried over (advanced by N
and wrapped modulo the sample rate) equals one raw sine block of
length 2N from the initial counter, provided the counter does not
wrap between the blocks (p + N < sampleRate) or the frequency is an
integer number of hertz; a wrap shifts the sine argument by
freq * wraps full periods, which changes the samples when the
frequency is fractional (see the counterexample). -/
theorem sineBlock_concat (freq amplitude : ℝ) (p N : ℕ)
    (h : p + N < sampleRate ∨ ∃ k : ℤ, freq = (k : ℝ)) :
    sineBlock freq amplitude p N ++
        sineBlock freq amplitude (advancePhase p N) N
      = sineBlock freq amplitude p (2 * N) := by
  have hfs : ((sampleRate : ℕ) : ℝ) ≠ 0 := by
    norm_num [sampleRate]
  have hlen : (sineBlock freq amplitude p N ++
      sineBlock freq amplitude (advancePhase p N) N).length = 2 * N := by
    rw [List.length_append, sineBlock_length, sineBlock_length]
    omega
  refine List.ext_getElem (by rw [hlen, sineBlock_length]) ?_
  intro j h1 h2
  have hj2 : j < 2 * N := by
    rwa [sineBlock_length] at h2
  rw [← List.getD_eq_getElem _ 0 h1, ← List.getD_eq_getElem _ 0 h2]
  rw [sineBlock_getD freq amplitude p (2 * N) j hj2]
  by_cases hjN : j < N
  · rw [List.getD_append _ _ 0 j (by rwa [sineBlock_length])]
    rw [sineBlock_getD freq amplitude p N j hjN]
  · have hNj : N ≤ j := le_of_not_lt hjN
    rw [List.getD_append_right _ _ 0 j (by rwa [sineBlock_length])]
    rw [sineBlock_length]
    rw [sineBlock_getD freq amplitude (advancePhase p N) N (j - N) (by omega)]
    have hjcast : ((j - N : ℕ) : ℝ) = (j : ℝ) - (N : ℝ) := by
      push_cast [hNj]
      ring
    rcases h with hlt | ⟨k, hk⟩
    · have hadv : advancePhase p N = p + N := Nat.mod_eq_of_lt hlt
      rw [hadv]
      congr 1
      rw [hjcast]
      push_cast
      ring_nf
    · have hmain := Nat.mod_add_div (p + N) sampleRate
      set q := (p + N) / sampleRate with hq
      have hle : sampleRate * q ≤ p + N := by omega
      have hcast : ((advancePhase p N : ℕ) : ℝ)
          = (p : ℝ) + (N : ℝ) - ((sampleRate : ℕ) : ℝ) * (q : ℝ) := by
        have hsub : advancePhase p N = p + N - sampleRate * q := by
          unfold advancePhase
          omega
        rw [hsub]
        push_cast [hle]
        ring
      have harg : 2 * Real.pi * freq *
            ((((j - N : ℕ) : ℝ) + ((advancePhase p N : ℕ) : ℝ))
              / ((sampleRate : ℕ) : ℝ))
          = 2 * Real.pi * freq *
              (((j : ℝ) + (p : ℝ)) / ((sampleRate : ℕ) : ℝ))
            + ((-(k * (q : ℤ)) : ℤ) : ℝ) * (2 * Real.pi) := by
        rw [hjcast, hcast, hk]
        push_cast
        field_simp
        ring
      rw [harg, Real.sin_add_int_mul_two_pi]

/-- C3, counterexample: at frequency 0.25 Hz, amplitude 1, initial
phase counter 15999 and block size 1, the counter wraps to 0 between
the blocks, making the second sample of the concatenation
sin(0) = 0, while the double-length block has sin(pi/2) = 1 there. -/
theorem sineBlock_concat_cex :
    sineBlock (1 / 4) 1 15999 1 ++
        sineBlock (1 / 4) 1 (advancePhase 15999 1) 1
      ≠ sineBlock (1 / 4) 1 15999 2 := by
  intro h
  have h2 := congrArg (fun l => l.getD 1 0) h
  simp only at h2
  have hadv : advancePhase 15999 1 = 0 := by
    norm_num [advancePhase, sampleRate]
  rw [hadv] at h2
  rw [List.getD_append_right _ _ 0 1 (by rw [sineBlock_length])] at h2
  rw [sineBlock_length, Nat.sub_self] at h2
  rw [sineBlock_getD (1 / 4) 1 0 1 0 (by norm_num)] at h2
  rw [sineBlock_getD (1 / 4) 1 15999 2 1 (by norm_num)] at h2
  have hL : 2 * Real.pi * (1 / 4) *
      (((0 : ℕ) + ((0 : ℕ) : ℝ)) / ((sampleRate : ℕ) : ℝ)) = 0 := by
    norm_num
  have hR : 2 * Real.pi * (1 / 4) *
      (((1 : ℕ) + ((15999 : ℕ) : ℝ)) / ((sampleRate : ℕ) : ℝ))
      = Real.pi / 2 := by
    norm_num [sampleRate]
    ring
  rw [hL, hR, Real.sin_zero, Real.sin_pi_div_two] at h2
  norm_num at h2

/-- Witness for sineBlock_concat at 440 Hz from phase 0 with the
source block size 1024 (no wrap). -/
theorem sineBlock_concat_witness :
    (0 + 1024 < sampleRate ∨ ∃ k : ℤ, (440 : ℝ) = (k : ℝ)) ∧
    sineBlock 440 (1 / 5) 0 1024 ++
        sineBlock 440 (1 / 5) (advancePhase 0 1024) 1024
      = sineBlock 440 (1 / 5) 0 (2 * 1024) :=
  ⟨Or.inl (by norm_num [sampleRate]),
    sineBlock_concat 440 (1 / 5) 0 1024 (Or.inl (by norm_num [sampleRate]))⟩

end HandAudio
